import Mathlib

/-!
Verification of the whisptube pipeline (src/whisptube.py): a shallow
embedding of `download_playlist`, `format_timestamp` and
`transcribe_videos` over an explicit filesystem state, together with
proofs of the specification's testable properties.

The filesystem is modelled explicitly: for the download stage as the list
of existing paths, for the transcription stage as an association list from
paths to file contents.  External processes (yt-dlp, the Whisper model)
are modelled as oracle functions supplied in an environment structure;
an oracle returning `none` (or a `false` exit flag) models the subprocess
raising `CalledProcessError` / the model raising, which the source catches
per item.
-/

namespace Whisptube

/-! ## Small string helpers (Python stdlib behaviour used by the source) -/

/-- Does the character list `l` start with `sub`? -/
def hasSubAt : List Char → List Char → Bool
  | _, [] => true
  | [], _ :: _ => false
  | d :: ds, c :: cs => d = c && hasSubAt ds cs

/-- Does the character list `l` contain `sub` contiguously? -/
def hasSub : List Char → List Char → Bool
  | [], sub => hasSubAt [] sub
  | d :: ds, sub => hasSubAt (d :: ds) sub || hasSub ds sub

/-- Substring test: does `s` contain `sub` as a contiguous substring?
Models Python's `sub in s`. -/
def containsStr (s sub : String) : Bool :=
  hasSub s.toList sub.toList

/-- Split a character list at every `'/'`. -/
def splitOnSlash : List Char → List (List Char)
  | [] => [[]]
  | c :: cs =>
    let r := splitOnSlash cs
    if c = '/' then [] :: r
    else
      match r with
      | [] => [[c]]
      | h :: t => (c :: h) :: t

/-- `os.path.basename`: the final path component. -/
def basename (p : String) : String :=
  String.mk ((splitOnSlash p.toList).getLastD [])

/-- The root part of `os.path.splitext`: split off the extension at the
last dot, where leading dots of the name do not start an extension. -/
def splitextStem (name : String) : String :=
  let cs := name.toList
  let lead := cs.takeWhile (fun c => c = '.')
  let rest := cs.drop lead.length
  if rest.contains '.' then
    let extLen := (rest.reverse.takeWhile (fun c => c ≠ '.')).length
    String.mk (cs.take (cs.length - extLen - 1))
  else name

/-! ## Timestamp formatting (`format_timestamp`, lines 124-137)

Seconds arrive as Python floats (segment start times); we model them as
rationals.  `int()` truncates toward zero and `%` on floats follows the
sign of the divisor. -/

/-- Python `int()` on a number: truncation toward zero. -/
def pyTrunc (q : ℚ) : ℤ :=
  if 0 ≤ q then ⌊q⌋ else ⌈q⌉

/-- Python `a % b` on numbers: remainder with the divisor's sign,
`a - b * floor(a / b)`. -/
def pyMod (a b : ℚ) : ℚ :=
  a - b * ⌊a / b⌋

/-- Python `f"{n:02d}"`: decimal rendering zero-padded to width 2.
Only one-character renderings (single nonnegative digits) are shorter
than 2, so prepending one `"0"` when short is exact. -/
def padZero2 (n : ℤ) : String :=
  let s := toString n
  if s.length < 2 then "0" ++ s else s

/-- `format_timestamp` (lines 124-137): `HH:MM:SS` with unbounded hours. -/
def format_timestamp (seconds : ℚ) : String :=
  let hours := pyTrunc (seconds / 3600)
  let minutes := pyTrunc (pyMod seconds 3600 / 60)
  let secs := pyTrunc (pyMod seconds 60)
  padZero2 hours ++ ":" ++ padZero2 minutes ++ ":" ++ padZero2 secs

/-! ## The Materializer (`download_playlist`, lines 17-122) -/

/-- A playlist item from the flat-playlist JSON manifest. -/
structure Video where
  id : String
  title : String
  deriving DecidableEq

/-- Oracle for the external downloader.
`printFilename` models `yt-dlp --print filename` (`none` = non-zero exit,
i.e. `CalledProcessError`); `download` models the download invocation and
returns the exit flag together with the filesystem after the attempt. -/
structure DownloadEnv where
  printFilename : Video → Option String
  download : Video → List String → Bool × List String

/-- Does the character list `l` end with `suf`? -/
def listEndsWith (l suf : List Char) : Bool :=
  hasSubAt l.reverse suf.reverse

/-- Does path `p` match the glob pattern `output_dir/*{vid}*.mp4`
(line 77)?  `p` must live directly in `output_dir`, end in `.mp4`, and
contain `vid` before the `.mp4` suffix. -/
def globMatchMp4 (output_dir vid p : String) : Bool :=
  let pre := (output_dir ++ "/").toList
  hasSubAt p.toList pre &&
  (let name := p.toList.drop pre.length
   !(name.contains '/') && listEndsWith name ".mp4".toList &&
     hasSub (name.take (name.length - 4)) vid.toList)

/-- Result of one iteration of the download loop (lines 60-119):
the recorded path (if any), the filesystem afterwards, and whether the
download command was invoked. -/
structure DLStep where
  path : Option String
  fs : List String
  invoked : Bool

/-- One iteration of the download loop (lines 60-119).  The whole body is
inside one `try`; a failing subprocess call jumps to the handler, which
only logs and continues. -/
def processVideo (env : DownloadEnv) (output_dir : String)
    (fs : List String) (v : Video) : DLStep :=
  match env.printFilename v with
  | none => ⟨none, fs, false⟩
  | some expected_filename =>
    if fs.contains expected_filename then
      ⟨some expected_filename, fs, false⟩
    else
      match fs.filter (globMatchMp4 output_dir v.id) with
      | e :: _ => ⟨some e, fs, false⟩
      | [] =>
        let r := env.download v fs
        if r.1 then
          if r.2.contains expected_filename then
            ⟨some expected_filename, r.2, true⟩
          else
            match r.2.filter (globMatchMp4 output_dir v.id) with
            | [] => ⟨none, r.2, true⟩
            | p :: _ => ⟨some p, r.2, true⟩
        else ⟨none, r.2, true⟩

/-- Accumulated state of `download_playlist`: recorded paths, the
filesystem, and the ids whose download command was invoked. -/
structure DLState where
  paths : List String
  fs : List String
  invoked : List String
  deriving DecidableEq

/-- One loop step of `download_playlist` acting on the accumulated state. -/
def downloadStep (env : DownloadEnv) (output_dir : String)
    (st : DLState) (v : Video) : DLState :=
  let r := processVideo env output_dir st.fs v
  { paths := st.paths ++ (match r.path with | some p => [p] | none => []),
    fs := r.fs,
    invoked := st.invoked ++ (if r.invoked then [v.id] else []) }

/-- `download_playlist` (lines 17-122), starting after the manifest query:
iterate the download loop over the manifest items. -/
def download_playlist (env : DownloadEnv) (output_dir : String)
    (videos : List Video) (fs : List String) : DLState :=
  List.foldl (downloadStep env output_dir) ⟨[], fs, []⟩ videos

/-! ## The Assembler (`transcribe_videos`, lines 139-276) -/

/-- A content-bearing filesystem: association list from path to contents;
the most recent write shadows older entries. -/
abbrev FS := List (String × String)

/-- Read a file: `none` models `FileNotFoundError` on `open`. -/
def fsRead (fs : FS) (p : String) : Option String :=
  (fs.find? (fun e => e.1 == p)).map Prod.snd

/-- `os.path.exists` over the content filesystem. -/
def fsExists (fs : FS) (p : String) : Bool :=
  (fsRead fs p).isSome

/-- Write a file (create or overwrite). -/
def fsWrite (fs : FS) (p c : String) : FS :=
  (p, c) :: fs

/-- A time-aligned segment of the recognition result. -/
structure Segment where
  start : ℚ
  text : String

/-- The recognition result: full text plus segments. -/
structure TranscribeResult where
  text : String
  segments : List Segment

/-- Oracle for the Whisper model: `none` models `model.transcribe`
raising (I/O error, decode error, model runtime error). -/
structure WhisperModel where
  transcribe : String → Option TranscribeResult

/-- The stem of a media path: basename with the extension stripped
(lines 197-198). -/
def stem (video_path : String) : String :=
  splitextStem (basename video_path)

/-- Path of the per-item timestamped transcript (line 199). -/
def outFile (tdir name : String) : String :=
  tdir ++ "/" ++ name ++ ".txt"

/-- Path of the per-item plain transcript (line 200). -/
def noTsFile (tdir name : String) : String :=
  tdir ++ "/" ++ name ++ "_no_timestamps.txt"

/-- Path of the per-item segmented transcript (line 201). -/
def segFile (tdir name : String) : String :=
  tdir ++ "/" ++ name ++ "_segmented.txt"

/-- Python `str.strip()`: drop leading and trailing whitespace. -/
def strip (s : String) : String :=
  String.mk
    (((s.toList.dropWhile Char.isWhitespace).reverse.dropWhile
        Char.isWhitespace).reverse)

/-- The segment loop (lines 231-235): build the timestamped text and the
segmented text by appending one line per segment. -/
def renderSegments (segments : List Segment) : String × String :=
  segments.foldl
    (fun acc segment =>
      (acc.1 ++ "[" ++ format_timestamp segment.start ++ "] " ++
         strip segment.text ++ "\n",
       acc.2 ++ strip segment.text ++ "\n"))
    ("", "")

/-- Accumulated state of the transcription loop: filesystem, the three
running combined buffers (lines 171-173), the returned transcript paths,
and the media paths the model was invoked on. -/
structure TState where
  fs : FS
  withTs : String
  noTs : String
  seg : String
  paths : List String
  invoked : List String

/-- One iteration of the transcription loop (lines 194-260).  The whole
body is inside one `try`.  In the cached branch the three reads and the
buffer appends are interleaved, so a read failure midway (the source's
`FileNotFoundError` for an absent sibling) leaves the appends that already
happened in place; the partial match arms model exactly those exception
points.  In the fresh branch a `none` from the model is the model raising:
nothing is written or appended. -/
def transcribeStep (model : WhisperModel) (tdir : String)
    (st : TState) (video_path : String) : TState :=
  let video_name := stem video_path
  let output_file := outFile tdir video_name
  let output_file_no_timestamps := noTsFile tdir video_name
  let output_file_segmented := segFile tdir video_name
  if fsExists st.fs output_file && fsExists st.fs output_file_segmented then
    match fsRead st.fs output_file, fsRead st.fs output_file_no_timestamps,
          fsRead st.fs output_file_segmented with
    | some t1, some t2, some t3 =>
      { st with
        withTs := st.withTs ++ t1 ++ "\n\n",
        noTs := st.noTs ++ t2 ++ "\n\n",
        seg := st.seg ++ t3 ++ "\n\n",
        paths := st.paths ++ [output_file] }
    | some t1, some t2, none =>
      { st with
        withTs := st.withTs ++ t1 ++ "\n\n",
        noTs := st.noTs ++ t2 ++ "\n\n" }
    | some t1, none, _ =>
      { st with withTs := st.withTs ++ t1 ++ "\n\n" }
    | none, _, _ => st
  else
    match model.transcribe video_path with
    | none => { st with invoked := st.invoked ++ [video_path] }
    | some result =>
      let rendered := renderSegments result.segments
      { fs := fsWrite (fsWrite (fsWrite st.fs output_file rendered.1)
                        output_file_no_timestamps result.text)
                output_file_segmented rendered.2,
        withTs := st.withTs ++ rendered.1 ++ "\n\n",
        noTs := st.noTs ++ result.text ++ "\n\n",
        seg := st.seg ++ rendered.2 ++ "\n\n",
        paths := st.paths ++ [output_file],
        invoked := st.invoked ++ [video_path] }

/-- The transcription loop folded over the media list. -/
def runFold (model : WhisperModel) (tdir : String)
    (st : TState) (video_paths : List String) : TState :=
  List.foldl (transcribeStep model tdir) st video_paths

/-- `transcribe_videos` (lines 139-276): process every media file, then
write the three combined files (lines 262-273), unconditionally
overwriting. -/
def transcribe_videos (model : WhisperModel) (video_paths : List String)
    (output_dir : String) (fs : FS) : TState :=
  let tdir := output_dir ++ "/transcriptions"
  let stN := runFold model tdir
    { fs := fs, withTs := "", noTs := "", seg := "", paths := [],
      invoked := [] } video_paths
  let fs1 := fsWrite stN.fs
    (tdir ++ "/combined_transcription_with_timestamps.txt") stN.withTs
  let fs2 := fsWrite fs1 (tdir ++ "/combined_transcription.txt") stN.noTs
  let fs3 := fsWrite fs2
    (tdir ++ "/combined_transcription_segmented.txt") stN.seg
  { stN with fs := fs3 }

/-- The three per-item transcript paths of a media file. -/
def itemFiles (tdir v : String) : List String :=
  [outFile tdir (stem v), noTsFile tdir (stem v), segFile tdir (stem v)]

/-- The three combined-output paths. -/
def combinedFiles (tdir : String) : List String :=
  [tdir ++ "/combined_transcription_with_timestamps.txt",
   tdir ++ "/combined_transcription.txt",
   tdir ++ "/combined_transcription_segmented.txt"]

/-- Concatenation of a list of strings, in order. -/
def joinAll : List String → String
  | [] => ""
  | s :: l => s ++ joinAll l

/-! ## Filesystem lemmas -/

lemma fsRead_fsWrite (fs : FS) (p c q : String) :
    fsRead (fsWrite fs p c) q = if q = p then some c else fsRead fs q := by
  simp only [fsRead, fsWrite, List.find?_cons]
  by_cases h : q = p
  · subst h; simp
  · have hb : (p == q) = false := beq_eq_false_iff_ne.mpr (Ne.symm h)
    simp [hb, h]

lemma fsExists_fsWrite (fs : FS) (p c q : String) :
    fsExists (fsWrite fs p c) q = (q = p || fsExists fs q) := by
  by_cases h : q = p <;> simp [fsExists, fsRead_fsWrite, h]

/-! ## Distinctness of the per-item transcript paths (same stem) -/

lemma outFile_ne_noTsFile (tdir s : String) :
    outFile tdir s ≠ noTsFile tdir s := by
  intro h
  have hl := congrArg String.length h
  simp only [outFile, noTsFile, String.length_append] at hl
  have h1 : (".txt" : String).length = 4 := rfl
  have h2 : ("_no_timestamps.txt" : String).length = 18 := rfl
  omega

lemma outFile_ne_segFile (tdir s : String) :
    outFile tdir s ≠ segFile tdir s := by
  intro h
  have hl := congrArg String.length h
  simp only [outFile, segFile, String.length_append] at hl
  have h1 : (".txt" : String).length = 4 := rfl
  have h2 : ("_segmented.txt" : String).length = 14 := rfl
  omega

lemma noTsFile_ne_segFile (tdir s : String) :
    noTsFile tdir s ≠ segFile tdir s := by
  intro h
  have hl := congrArg String.length h
  simp only [noTsFile, segFile, String.length_append] at hl
  have h1 : ("_no_timestamps.txt" : String).length = 18 := rfl
  have h2 : ("_segmented.txt" : String).length = 14 := rfl
  omega

/-! ## Characterization of one transcription-loop iteration -/

/-- Cached branch with all three siblings present: read and append all
three contents and record the timestamped path (lines 204-216). -/
lemma step_cached_full (m : WhisperModel) (tdir : String) (st : TState)
    (v t1 t2 t3 : String)
    (h1 : fsRead st.fs (outFile tdir (stem v)) = some t1)
    (h2 : fsRead st.fs (noTsFile tdir (stem v)) = some t2)
    (h3 : fsRead st.fs (segFile tdir (stem v)) = some t3) :
    transcribeStep m tdir st v =
      { st with
        withTs := st.withTs ++ t1 ++ "\n\n",
        noTs := st.noTs ++ t2 ++ "\n\n",
        seg := st.seg ++ t3 ++ "\n\n",
        paths := st.paths ++ [outFile tdir (stem v)] } := by
  have hg1 : fsExists st.fs (outFile tdir (stem v)) = true := by
    simp [fsExists, h1]
  have hg3 : fsExists st.fs (segFile tdir (stem v)) = true := by
    simp [fsExists, h3]
  simp only [transcribeStep, hg1, hg3, h1, h2, h3, Bool.and_self, if_true]

/-- Cached branch with the plain sibling absent: the first read and
append happen, then the second `open` raises (lines 206-211). -/
lemma step_cached_noPlain (m : WhisperModel) (tdir : String) (st : TState)
    (v t1 : String)
    (h1 : fsRead st.fs (outFile tdir (stem v)) = some t1)
    (h2 : fsRead st.fs (noTsFile tdir (stem v)) = none)
    (h3 : (fsRead st.fs (segFile tdir (stem v))).isSome = true) :
    transcribeStep m tdir st v =
      { st with withTs := st.withTs ++ t1 ++ "\n\n" } := by
  have hg1 : fsExists st.fs (outFile tdir (stem v)) = true := by
    simp [fsExists, h1]
  have hg3 : fsExists st.fs (segFile tdir (stem v)) = true := h3
  simp only [transcribeStep, hg1, hg3, h1, h2, Bool.and_self, if_true]

/-- Fresh branch, model raises: nothing written, nothing appended
(lines 221, 257-260). -/
lemma step_fresh_fail (m : WhisperModel) (tdir : String) (st : TState)
    (v : String)
    (hg : (fsExists st.fs (outFile tdir (stem v)) &&
            fsExists st.fs (segFile tdir (stem v))) = false)
    (hm : m.transcribe v = none) :
    transcribeStep m tdir st v = { st with invoked := st.invoked ++ [v] } := by
  simp only [transcribeStep, hg, hm, Bool.false_eq_true, if_false]

/-- Fresh branch, model succeeds: write the three files, append to the
three buffers, record the path (lines 221-255). -/
lemma step_fresh_ok (m : WhisperModel) (tdir : String) (st : TState)
    (v : String) (r : TranscribeResult)
    (hg : (fsExists st.fs (outFile tdir (stem v)) &&
            fsExists st.fs (segFile tdir (stem v))) = false)
    (hm : m.transcribe v = some r) :
    transcribeStep m tdir st v =
      { fs := fsWrite
          (fsWrite (fsWrite st.fs (outFile tdir (stem v))
              (renderSegments r.segments).1)
            (noTsFile tdir (stem v)) r.text)
          (segFile tdir (stem v)) (renderSegments r.segments).2,
        withTs := st.withTs ++ (renderSegments r.segments).1 ++ "\n\n",
        noTs := st.noTs ++ r.text ++ "\n\n",
        seg := st.seg ++ (renderSegments r.segments).2 ++ "\n\n",
        paths := st.paths ++ [outFile tdir (stem v)],
        invoked := st.invoked ++ [v] } := by
  simp only [transcribeStep, hg, hm, Bool.false_eq_true, if_false]

/-! ## Fold-level lemmas -/

lemma step_paths_cases (m : WhisperModel) (tdir : String) (st : TState)
    (v : String) :
    (transcribeStep m tdir st v).paths = st.paths ∨
      (transcribeStep m tdir st v).paths = st.paths ++ [outFile tdir (stem v)] := by
  simp only [transcribeStep]
  split
  · split <;> simp
  · split <;> simp

lemma step_fs_frame (m : WhisperModel) (tdir : String) (st : TState)
    (v p : String) (hp : p ∉ itemFiles tdir v) :
    fsRead (transcribeStep m tdir st v).fs p = fsRead st.fs p := by
  simp only [itemFiles, List.mem_cons, List.not_mem_nil, or_false, not_or] at hp
  obtain ⟨hp1, hp2, hp3⟩ := hp
  simp only [transcribeStep]
  split
  · split <;> simp
  · split
    · simp
    · simp [fsRead_fsWrite, hp1, hp2, hp3]

lemma runFold_cons (m : WhisperModel) (tdir : String) (st : TState)
    (v : String) (l : List String) :
    runFold m tdir st (v :: l) = runFold m tdir (transcribeStep m tdir st v) l := rfl

lemma runFold_nil (m : WhisperModel) (tdir : String) (st : TState) :
    runFold m tdir st [] = st := rfl

lemma runFold_paths_len_le (m : WhisperModel) (tdir : String) :
    ∀ (l : List String) (st : TState),
      (runFold m tdir st l).paths.length ≤ st.paths.length + l.length := by
  intro l
  induction l with
  | nil => intro st; simp [runFold_nil]
  | cons v l ih =>
    intro st
    rw [runFold_cons]
    rcases step_paths_cases m tdir st v with h | h
    · have := ih (transcribeStep m tdir st v)
      rw [h] at this
      simpa using Nat.le_trans this (by omega)
    · have := ih (transcribeStep m tdir st v)
      rw [h] at this
      simp only [List.length_append, List.length_cons, List.length_nil] at this ⊢
      omega

lemma runFold_fs_frame (m : WhisperModel) (tdir : String) :
    ∀ (l : List String) (st : TState) (p : String),
      (∀ u ∈ l, p ∉ itemFiles tdir u) →
      fsRead (runFold m tdir st l).fs p = fsRead st.fs p := by
  intro l
  induction l with
  | nil => intro st p _; rfl
  | cons v l ih =>
    intro st p hp
    rw [runFold_cons, ih _ _ (fun u hu => hp u (List.mem_cons_of_mem v hu)),
      step_fs_frame m tdir st v p (hp v (List.mem_cons_self v l))]

/-! ## Success-run and cached-run lemmas for the Assembler -/

/-- Assembly step shared by the two success branches of
`runFold_success_spec`: given that one iteration produced contribution
`(a, b, c)`, recorded its path, and left its three files readable, extend
the tail's induction hypothesis to the whole list. -/
lemma success_cons_assemble (m : WhisperModel) (tdir v : String)
    (l : List String) (st E : TState) (a b c : String)
    (hfr : ∀ p ∈ itemFiles tdir v,
      fsRead (runFold m tdir E l).fs p = fsRead E.fs p)
    (ha : fsRead E.fs (outFile tdir (stem v)) = some a)
    (hb : fsRead E.fs (noTsFile tdir (stem v)) = some b)
    (hc : fsRead E.fs (segFile tdir (stem v)) = some c)
    (hEw : E.withTs = st.withTs ++ a ++ "\n\n")
    (hEn : E.noTs = st.noTs ++ b ++ "\n\n")
    (hEs : E.seg = st.seg ++ c ++ "\n\n")
    (hEp : E.paths = st.paths ++ [outFile tdir (stem v)])
    (ihp : (runFold m tdir E l).paths
        = E.paths ++ l.map (fun u => outFile tdir (stem u)))
    (ihw : (runFold m tdir E l).withTs
        = E.withTs ++ joinAll (l.map (fun u =>
            (fsRead (runFold m tdir E l).fs (outFile tdir (stem u))).getD ""
              ++ "\n\n")))
    (ihn : (runFold m tdir E l).noTs
        = E.noTs ++ joinAll (l.map (fun u =>
            (fsRead (runFold m tdir E l).fs (noTsFile tdir (stem u))).getD ""
              ++ "\n\n")))
    (ihs : (runFold m tdir E l).seg
        = E.seg ++ joinAll (l.map (fun u =>
            (fsRead (runFold m tdir E l).fs (segFile tdir (stem u))).getD ""
              ++ "\n\n")))
    (ihm : ∀ u ∈ l,
      (fsRead (runFold m tdir E l).fs (outFile tdir (stem u))).isSome = true ∧
      (fsRead (runFold m tdir E l).fs (noTsFile tdir (stem u))).isSome = true ∧
      (fsRead (runFold m tdir E l).fs (segFile tdir (stem u))).isSome = true) :
    (runFold m tdir E l).paths
        = st.paths ++ (v :: l).map (fun u => outFile tdir (stem u)) ∧
    (runFold m tdir E l).withTs
        = st.withTs ++ joinAll ((v :: l).map (fun u =>
            (fsRead (runFold m tdir E l).fs (outFile tdir (stem u))).getD ""
              ++ "\n\n")) ∧
    (runFold m tdir E l).noTs
        = st.noTs ++ joinAll ((v :: l).map (fun u =>
            (fsRead (runFold m tdir E l).fs (noTsFile tdir (stem u))).getD ""
              ++ "\n\n")) ∧
    (runFold m tdir E l).seg
        = st.seg ++ joinAll ((v :: l).map (fun u =>
            (fsRead (runFold m tdir E l).fs (segFile tdir (stem u))).getD ""
              ++ "\n\n")) ∧
    (∀ u ∈ v :: l,
      (fsRead (runFold m tdir E l).fs (outFile tdir (stem u))).isSome = true ∧
      (fsRead (runFold m tdir E l).fs (noTsFile tdir (stem u))).isSome = true ∧
      (fsRead (runFold m tdir E l).fs (segFile tdir (stem u))).isSome = true) := by
  have hva : fsRead (runFold m tdir E l).fs (outFile tdir (stem v)) = some a := by
    rw [hfr _ (by simp [itemFiles]), ha]
  have hvb : fsRead (runFold m tdir E l).fs (noTsFile tdir (stem v)) = some b := by
    rw [hfr _ (by simp [itemFiles]), hb]
  have hvc : fsRead (runFold m tdir E l).fs (segFile tdir (stem v)) = some c := by
    rw [hfr _ (by simp [itemFiles]), hc]
  refine ⟨?_, ?_, ?_, ?_, ?_⟩
  · rw [ihp, hEp, List.map_cons, List.append_assoc, List.singleton_append]
  · rw [ihw, hEw, List.map_cons]
    simp only [joinAll, hva, Option.getD_some, String.append_assoc]
  · rw [ihn, hEn, List.map_cons]
    simp only [joinAll, hvb, Option.getD_some, String.append_assoc]
  · rw [ihs, hEs, List.map_cons]
    simp only [joinAll, hvc, Option.getD_some, String.append_assoc]
  · intro u hu
    rcases List.mem_cons.mp hu with h | h
    · subst h
      exact ⟨by simp [hva], by simp [hvb], by simp [hvc]⟩
    · exact ihm u h

/-- When every iteration succeeds (witnessed by the path count), the run
appends one timestamped path per item, each item's three files are
readable in the final filesystem, and each combined buffer is the
concatenation, in input order, of the final file contents plus a blank
line per item. -/
lemma runFold_success_spec (m : WhisperModel) (tdir : String) :
    ∀ (l : List String) (st : TState),
      l.Pairwise (fun u w => ∀ q ∈ itemFiles tdir u, q ∉ itemFiles tdir w) →
      (runFold m tdir st l).paths.length = st.paths.length + l.length →
      (runFold m tdir st l).paths
          = st.paths ++ l.map (fun u => outFile tdir (stem u)) ∧
      (runFold m tdir st l).withTs
          = st.withTs ++ joinAll (l.map (fun u =>
              (fsRead (runFold m tdir st l).fs (outFile tdir (stem u))).getD ""
                ++ "\n\n")) ∧
      (runFold m tdir st l).noTs
          = st.noTs ++ joinAll (l.map (fun u =>
              (fsRead (runFold m tdir st l).fs (noTsFile tdir (stem u))).getD ""
                ++ "\n\n")) ∧
      (runFold m tdir st l).seg
          = st.seg ++ joinAll (l.map (fun u =>
              (fsRead (runFold m tdir st l).fs (segFile tdir (stem u))).getD ""
                ++ "\n\n")) ∧
      (∀ u ∈ l,
        (fsRead (runFold m tdir st l).fs (outFile tdir (stem u))).isSome = true ∧
        (fsRead (runFold m tdir st l).fs (noTsFile tdir (stem u))).isSome = true ∧
        (fsRead (runFold m tdir st l).fs (segFile tdir (stem u))).isSome = true) := by
  intro l
  induction l with
  | nil =>
    intro st _ _
    refine ⟨by simp [runFold_nil], ?_, ?_, ?_, by simp⟩ <;>
      simp [runFold_nil, joinAll, String.append_empty]
  | cons v l ih =>
    intro st hpw hlen
    have hR := (List.pairwise_cons.mp hpw).1
    have hpw' := (List.pairwise_cons.mp hpw).2
    rw [runFold_cons] at hlen ⊢
    rcases step_paths_cases m tdir st v with hsame | happ
    · exfalso
      have hb := runFold_paths_len_le m tdir l (transcribeStep m tdir st v)
      rw [hsame] at hb
      simp only [List.length_cons] at hlen
      omega
    · have hlen' : (runFold m tdir (transcribeStep m tdir st v) l).paths.length
          = (transcribeStep m tdir st v).paths.length + l.length := by
        rw [happ]
        simp only [List.length_cons, List.length_append, List.length_singleton,
          List.length_nil] at hlen ⊢
        omega
      by_cases hg : (fsExists st.fs (outFile tdir (stem v)) &&
          fsExists st.fs (segFile tdir (stem v))) = true
      · -- cached branch
        have hg1 : (fsRead st.fs (outFile tdir (stem v))).isSome = true :=
          (Bool.and_eq_true _ _ |>.mp hg).1
        have hg3 : (fsRead st.fs (segFile tdir (stem v))).isSome = true :=
          (Bool.and_eq_true _ _ |>.mp hg).2
        obtain ⟨t1, h1⟩ := Option.isSome_iff_exists.mp hg1
        obtain ⟨t3, h3⟩ := Option.isSome_iff_exists.mp hg3
        cases hr2 : fsRead st.fs (noTsFile tdir (stem v)) with
        | none =>
          exfalso
          have hstep := step_cached_noPlain m tdir st v t1 h1 hr2
            (by simp [h3])
          rw [hstep] at happ
          simp at happ
        | some t2 =>
          have hstep := step_cached_full m tdir st v t1 t2 t3 h1 hr2 h3
          rw [hstep] at hlen' ⊢
          obtain ⟨ihp, ihw, ihn, ihs, ihm⟩ := ih _ hpw' hlen'
          exact success_cons_assemble m tdir v l st _ t1 t2 t3
            (fun p hp => runFold_fs_frame m tdir l _ p
              (fun u hu => hR u hu p hp))
            h1 hr2 h3 rfl rfl rfl rfl ihp ihw ihn ihs ihm
      · -- fresh branch
        have hg' : (fsExists st.fs (outFile tdir (stem v)) &&
            fsExists st.fs (segFile tdir (stem v))) = false :=
          Bool.not_eq_true _ |>.mp hg
        cases hm : m.transcribe v with
        | none =>
          exfalso
          have hstep := step_fresh_fail m tdir st v hg' hm
          rw [hstep] at happ
          simp at happ
        | some r =>
          have hstep := step_fresh_ok m tdir st v r hg' hm
          rw [hstep] at hlen' ⊢
          obtain ⟨ihp, ihw, ihn, ihs, ihm⟩ := ih _ hpw' hlen'
          have hne1 := outFile_ne_noTsFile tdir (stem v)
          have hne2 := outFile_ne_segFile tdir (stem v)
          have hne3 := noTsFile_ne_segFile tdir (stem v)
          exact success_cons_assemble m tdir v l st _
            (renderSegments r.segments).1 r.text (renderSegments r.segments).2
            (fun p hp => runFold_fs_frame m tdir l _ p
              (fun u hu => hR u hu p hp))
            (by simp [fsRead_fsWrite, hne1, hne2])
            (by simp [fsRead_fsWrite, hne3])
            (by simp [fsRead_fsWrite])
            rfl rfl rfl rfl ihp ihw ihn ihs ihm

/-- When every item's three transcript files are already readable, the
run touches neither the filesystem nor the invocation list: every item is
loaded from cache, its timestamped path is recorded, and each combined
buffer is rebuilt from the file contents. -/
lemma runFold_cached_spec (m : WhisperModel) (tdir : String) :
    ∀ (l : List String) (st : TState),
      (∀ u ∈ l,
        (fsRead st.fs (outFile tdir (stem u))).isSome = true ∧
        (fsRead st.fs (noTsFile tdir (stem u))).isSome = true ∧
        (fsRead st.fs (segFile tdir (stem u))).isSome = true) →
      (runFold m tdir st l).fs = st.fs ∧
      (runFold m tdir st l).invoked = st.invoked ∧
      (runFold m tdir st l).paths
          = st.paths ++ l.map (fun u => outFile tdir (stem u)) ∧
      (runFold m tdir st l).withTs
          = st.withTs ++ joinAll (l.map (fun u =>
              (fsRead st.fs (outFile tdir (stem u))).getD "" ++ "\n\n")) ∧
      (runFold m tdir st l).noTs
          = st.noTs ++ joinAll (l.map (fun u =>
              (fsRead st.fs (noTsFile tdir (stem u))).getD "" ++ "\n\n")) ∧
      (runFold m tdir st l).seg
          = st.seg ++ joinAll (l.map (fun u =>
              (fsRead st.fs (segFile tdir (stem u))).getD "" ++ "\n\n")) := by
  intro l
  induction l with
  | nil =>
    intro st _
    refine ⟨rfl, rfl, by simp [runFold_nil], ?_, ?_, ?_⟩ <;>
      simp [runFold_nil, joinAll, String.append_empty]
  | cons v l ih =>
    intro st h
    obtain ⟨hv1, hv2, hv3⟩ := h v (List.mem_cons_self v l)
    obtain ⟨t1, h1⟩ := Option.isSome_iff_exists.mp hv1
    obtain ⟨t2, h2⟩ := Option.isSome_iff_exists.mp hv2
    obtain ⟨t3, h3⟩ := Option.isSome_iff_exists.mp hv3
    have hstep := step_cached_full m tdir st v t1 t2 t3 h1 h2 h3
    rw [runFold_cons, hstep]
    have hfs :
        ({ st with
            withTs := st.withTs ++ t1 ++ "\n\n",
            noTs := st.noTs ++ t2 ++ "\n\n",
            seg := st.seg ++ t3 ++ "\n\n",
            paths := st.paths ++ [outFile tdir (stem v)] } : TState).fs
          = st.fs := rfl
    obtain ⟨ihf, ihi, ihp, ihw, ihn, ihs⟩ :=
      ih _ (by rw [hfs]; exact fun u hu => h u (List.mem_cons_of_mem v hu))
    refine ⟨by rw [ihf], by rw [ihi], ?_, ?_, ?_, ?_⟩
    · rw [ihp, List.map_cons, List.append_assoc, List.singleton_append]
    · rw [ihw, List.map_cons]
      simp only [joinAll, h1, Option.getD_some, String.append_assoc]
    · rw [ihn, List.map_cons]
      simp only [joinAll, h2, Option.getD_some, String.append_assoc]
    · rw [ihs, List.map_cons]
      simp only [joinAll, h3, Option.getD_some, String.append_assoc]

/-- The initial state of the transcription loop. -/
def initState (fs : FS) : TState :=
  { fs := fs, withTs := "", noTs := "", seg := "", paths := [], invoked := [] }

lemma joinAll_congr (l : List String) (f g : String → String)
    (h : ∀ a ∈ l, f a = g a) : joinAll (l.map f) = joinAll (l.map g) := by
  rw [List.map_congr_left h]

lemma transcribe_videos_proj (m : WhisperModel) (l : List String)
    (dir : String) (fs : FS) :
    (transcribe_videos m l dir fs).withTs
        = (runFold m (dir ++ "/transcriptions") (initState fs) l).withTs ∧
    (transcribe_videos m l dir fs).noTs
        = (runFold m (dir ++ "/transcriptions") (initState fs) l).noTs ∧
    (transcribe_videos m l dir fs).seg
        = (runFold m (dir ++ "/transcriptions") (initState fs) l).seg ∧
    (transcribe_videos m l dir fs).paths
        = (runFold m (dir ++ "/transcriptions") (initState fs) l).paths ∧
    (transcribe_videos m l dir fs).invoked
        = (runFold m (dir ++ "/transcriptions") (initState fs) l).invoked ∧
    (transcribe_videos m l dir fs).fs
        = fsWrite (fsWrite (fsWrite
            (runFold m (dir ++ "/transcriptions") (initState fs) l).fs
            ((dir ++ "/transcriptions")
              ++ "/combined_transcription_with_timestamps.txt")
            (runFold m (dir ++ "/transcriptions") (initState fs) l).withTs)
          ((dir ++ "/transcriptions") ++ "/combined_transcription.txt")
          (runFold m (dir ++ "/transcriptions") (initState fs) l).noTs)
          ((dir ++ "/transcriptions") ++ "/combined_transcription_segmented.txt")
          (runFold m (dir ++ "/transcriptions") (initState fs) l).seg :=
  ⟨rfl, rfl, rfl, rfl, rfl, rfl⟩

lemma step_invoked_eq (m : WhisperModel) (tdir : String) (st : TState)
    (v : String) :
    (transcribeStep m tdir st v).invoked
      = if fsExists st.fs (outFile tdir (stem v)) &&
            fsExists st.fs (segFile tdir (stem v))
        then st.invoked else st.invoked ++ [v] := by
  simp only [transcribeStep]
  split
  · split <;> rfl
  · split <;> rfl

lemma runFold_fresh_seg (m : WhisperModel) (tdir : String) :
    ∀ (l : List String) (st : TState),
      l.Pairwise (fun u w => ∀ q ∈ itemFiles tdir u, q ∉ itemFiles tdir w) →
      (∀ u ∈ l, fsExists st.fs (outFile tdir (stem u)) = false) →
      (∀ u ∈ l, (m.transcribe u).isSome = true) →
      (runFold m tdir st l).seg
        = st.seg ++ joinAll (l.map fun u =>
            (renderSegments ((m.transcribe u).getD ⟨"", []⟩).segments).2
              ++ "\n\n") := by
  intro l
  induction l with
  | nil =>
    intro st _ _ _
    simp [runFold_nil, joinAll, String.append_empty]
  | cons v l ih =>
    intro st hpw hfresh hm
    have hR := (List.pairwise_cons.mp hpw).1
    have hpw' := (List.pairwise_cons.mp hpw).2
    obtain ⟨r, hr⟩ := Option.isSome_iff_exists.mp (hm v (List.mem_cons_self v l))
    have hg : (fsExists st.fs (outFile tdir (stem v)) &&
        fsExists st.fs (segFile tdir (stem v))) = false := by
      rw [hfresh v (List.mem_cons_self v l)]; rfl
    have hstep := step_fresh_ok m tdir st v r hg hr
    rw [runFold_cons]
    have hfresh' : ∀ u ∈ l,
        fsExists (transcribeStep m tdir st v).fs
          (outFile tdir (stem u)) = false := by
      intro u hu
      rw [hstep]
      show fsExists (fsWrite
          (fsWrite (fsWrite st.fs (outFile tdir (stem v))
              (renderSegments r.segments).1)
            (noTsFile tdir (stem v)) r.text)
          (segFile tdir (stem v)) (renderSegments r.segments).2)
          (outFile tdir (stem u)) = false
      have hout : outFile tdir (stem u) ∉ itemFiles tdir v :=
        fun hmem => hR u hu _ hmem (by simp [itemFiles])
      simp only [itemFiles, List.mem_cons, List.not_mem_nil, or_false,
        not_or] at hout
      simp [fsExists_fsWrite, hout.1, hout.2.1, hout.2.2,
        hfresh u (List.mem_cons_of_mem v hu)]
    have hrest := ih (transcribeStep m tdir st v) hpw' hfresh'
      (fun u hu => hm u (List.mem_cons_of_mem v hu))
    rw [hrest, hstep]
    show (st.seg ++ (renderSegments r.segments).2 ++ "\n\n") ++ _ = _
    rw [List.map_cons]
    simp only [joinAll, hr, Option.getD_some, String.append_assoc]

/-! ## Lemmas for the Materializer loop -/

lemma contains_true_of_mem {l : List String} {a : String} (h : a ∈ l) :
    l.contains a = true := List.elem_iff.mpr h

lemma contains_false_of_not_mem {l : List String} {a : String} (h : a ∉ l) :
    l.contains a = false := by
  rw [Bool.eq_false_iff]
  intro hc
  exact h (List.elem_iff.mp hc)

/-- If the item resolves by expected filename or glob, the step skips the
download and leaves the filesystem alone. -/
lemma processVideo_skip (env : DownloadEnv) (dir : String)
    (fs : List String) (v : Video)
    (h : ∀ e, env.printFilename v = some e →
      (e ∈ fs ∨ fs.filter (globMatchMp4 dir v.id) ≠ [])) :
    (processVideo env dir fs v).invoked = false ∧
    (processVideo env dir fs v).fs = fs := by
  cases hpf : env.printFilename v with
  | none => simp [processVideo, hpf]
  | some e =>
    simp only [processVideo, hpf]
    by_cases hc : e ∈ fs
    · rw [if_pos (contains_true_of_mem hc)]
      exact ⟨rfl, rfl⟩
    · rw [if_neg (by simp [hc])]
      rcases h e hpf with hm | hg
      · exact absurd hm hc
      · cases hm : fs.filter (globMatchMp4 dir v.id) with
        | nil => exact absurd hm hg
        | cons a t => simp [hm]

lemma dl_run_noinvoke (env : DownloadEnv) (dir : String) :
    ∀ (videos : List Video) (st : DLState),
      (∀ v ∈ videos, ∀ e, env.printFilename v = some e →
        (e ∈ st.fs ∨ st.fs.filter (globMatchMp4 dir v.id) ≠ [])) →
      (List.foldl (downloadStep env dir) st videos).invoked = st.invoked ∧
      (List.foldl (downloadStep env dir) st videos).fs = st.fs := by
  intro videos
  induction videos with
  | nil => intro st _; exact ⟨rfl, rfl⟩
  | cons v l ih =>
    intro st h
    obtain ⟨hi, hf⟩ :=
      processVideo_skip env dir st.fs v (h v (List.mem_cons_self v l))
    have hst : (downloadStep env dir st v).fs = st.fs := by
      simp [downloadStep, hf]
    have hsti : (downloadStep env dir st v).invoked = st.invoked := by
      simp [downloadStep, hi]
    rw [List.foldl_cons]
    obtain ⟨ih1, ih2⟩ := ih (downloadStep env dir st v)
      (by rw [hst]; exact fun u hu => h u (List.mem_cons_of_mem v hu))
    exact ⟨by rw [ih1, hsti], by rw [ih2, hst]⟩

lemma dlstep_paths_cases (env : DownloadEnv) (dir : String) (st : DLState)
    (v : Video) :
    (downloadStep env dir st v).paths = st.paths ∨
    ∃ p, (processVideo env dir st.fs v).path = some p ∧
      (downloadStep env dir st v).paths = st.paths ++ [p] := by
  cases hp : (processVideo env dir st.fs v).path with
  | none => left; simp [downloadStep, hp]
  | some p => right; exact ⟨p, rfl, by simp [downloadStep, hp]⟩

lemma dlfold_paths_le (env : DownloadEnv) (dir : String) :
    ∀ (l : List Video) (st : DLState),
      (List.foldl (downloadStep env dir) st l).paths.length
        ≤ st.paths.length + l.length := by
  intro l
  induction l with
  | nil => intro st; simp
  | cons v l ih =>
    intro st
    rw [List.foldl_cons]
    rcases dlstep_paths_cases env dir st v with h | ⟨p, _, h⟩ <;>
    · have := ih (downloadStep env dir st v)
      rw [h] at this
      simp only [List.length_append, List.length_cons, List.length_nil] at this ⊢
      omega

lemma processVideo_fs_mono (env : DownloadEnv) (dir : String)
    (fs : List String) (v : Video)
    (hmono : ∀ u fs', fs' ⊆ (env.download u fs').2) :
    fs ⊆ (processVideo env dir fs v).fs := by
  cases hpf : env.printFilename v with
  | none => simp [processVideo, hpf]
  | some e =>
    simp only [processVideo, hpf]
    by_cases hc : e ∈ fs
    · rw [if_pos (contains_true_of_mem hc)]
      exact fun a ha => ha
    · rw [if_neg (by simp [hc])]
      cases hm : fs.filter (globMatchMp4 dir v.id) with
      | cons a t => simp only [hm]; exact fun a ha => ha
      | nil =>
        simp only [hm]
        by_cases hok : (env.download v fs).1 = true
        · rw [if_pos hok]
          by_cases hce : e ∈ (env.download v fs).2
          · rw [if_pos (contains_true_of_mem hce)]
            exact hmono v fs
          · rw [if_neg (by simp [hce])]
            cases hfil2 : (env.download v fs).2.filter (globMatchMp4 dir v.id) with
            | nil => simp only [hfil2]; exact hmono v fs
            | cons a t => simp only [hfil2]; exact hmono v fs
        · rw [if_neg hok]
          exact hmono v fs

lemma dlfold_fs_mono (env : DownloadEnv) (dir : String)
    (hmono : ∀ u fs', fs' ⊆ (env.download u fs').2) :
    ∀ (l : List Video) (st : DLState),
      st.fs ⊆ (List.foldl (downloadStep env dir) st l).fs := by
  intro l
  induction l with
  | nil => intro st; exact fun a ha => ha
  | cons v l ih =>
    intro st
    rw [List.foldl_cons]
    intro a ha
    exact ih (downloadStep env dir st v)
      (processVideo_fs_mono env dir st.fs v hmono ha)

lemma filter_ne_nil_mono {p : String → Bool} {l l' : List String}
    (hsub : l ⊆ l') (h : l.filter p ≠ []) : l'.filter p ≠ [] := by
  cases hm : l.filter p with
  | nil => exact absurd hm h
  | cons a t =>
    have ha : a ∈ l.filter p := by rw [hm]; exact List.mem_cons_self a t
    have hsplit := List.mem_filter.mp ha
    exact List.ne_nil_of_mem
      (List.mem_filter.mpr ⟨hsub hsplit.1, hsplit.2⟩)

/-- A recorded path means the item resolved in the step's final
filesystem: expected filename present, or glob match present. -/
lemma processVideo_resolved (env : DownloadEnv) (dir : String)
    (fs : List String) (v : Video) (e p : String)
    (hpf : env.printFilename v = some e)
    (hp : (processVideo env dir fs v).path = some p) :
    e ∈ (processVideo env dir fs v).fs ∨
    (processVideo env dir fs v).fs.filter (globMatchMp4 dir v.id) ≠ [] := by
  simp only [processVideo, hpf] at hp ⊢
  by_cases hc : e ∈ fs
  · rw [if_pos (contains_true_of_mem hc)] at hp ⊢
    left; exact hc
  · rw [if_neg (by simp [hc])] at hp ⊢
    cases hfil : fs.filter (globMatchMp4 dir v.id) with
    | cons a t =>
      simp only [hfil] at hp ⊢
      right
      simp [hfil]
    | nil =>
      simp only [hfil] at hp ⊢
      by_cases hok : (env.download v fs).1 = true
      · rw [if_pos hok] at hp ⊢
        by_cases hce : e ∈ (env.download v fs).2
        · rw [if_pos (contains_true_of_mem hce)] at hp ⊢
          left; exact hce
        · rw [if_neg (by simp [hce])] at hp ⊢
          cases hfil2 : (env.download v fs).2.filter (globMatchMp4 dir v.id) with
          | nil => simp [hfil2] at hp
          | cons a t =>
            simp only [hfil2] at hp ⊢
            right
            simp [hfil2]
      · rw [if_neg hok] at hp
        simp at hp

lemma dl_run_resolved (env : DownloadEnv) (dir : String)
    (hmono : ∀ u fs', fs' ⊆ (env.download u fs').2) :
    ∀ (l : List Video) (st : DLState),
      (List.foldl (downloadStep env dir) st l).paths.length
        = st.paths.length + l.length →
      ∀ v ∈ l, ∃ e, env.printFilename v = some e ∧
        (e ∈ (List.foldl (downloadStep env dir) st l).fs ∨
         (List.foldl (downloadStep env dir) st l).fs.filter
             (globMatchMp4 dir v.id) ≠ []) := by
  intro l
  induction l with
  | nil => intro st _ v hv; exact absurd hv (List.not_mem_nil v)
  | cons v l ih =>
    intro st hlen u hu
    rw [List.foldl_cons] at hlen ⊢
    rcases dlstep_paths_cases env dir st v with hsame | ⟨p, hpath, happ⟩
    · exfalso
      have hb := dlfold_paths_le env dir l (downloadStep env dir st v)
      rw [hsame] at hb
      simp only [List.length_cons] at hlen
      omega
    · have hlen' : (List.foldl (downloadStep env dir)
          (downloadStep env dir st v) l).paths.length
          = (downloadStep env dir st v).paths.length + l.length := by
        rw [happ]
        simp only [List.length_cons, List.length_append, List.length_nil] at hlen ⊢
        omega
      rcases List.mem_cons.mp hu with rfl | hul
      · -- the head item itself
        cases hpf : env.printFilename u with
        | none => rw [processVideo, hpf] at hpath; exact absurd hpath (by simp)
        | some e =>
          refine ⟨e, rfl, ?_⟩
          have hres := processVideo_resolved env dir st.fs u e p hpf hpath
          have hsub : (processVideo env dir st.fs u).fs
              ⊆ (List.foldl (downloadStep env dir)
                  (downloadStep env dir st u) l).fs :=
            dlfold_fs_mono env dir hmono l (downloadStep env dir st u)
          rcases hres with hmem | hfil
          · exact Or.inl (hsub hmem)
          · exact Or.inr (filter_ne_nil_mono hsub hfil)
      · exact ih (downloadStep env dir st v) hlen' u hul

/-! ## Arithmetic lemma for timestamp formatting -/

lemma pyMod_nonneg (a b : ℚ) (hb : 0 < b) : 0 ≤ pyMod a b := by
  unfold pyMod
  have h1 : ((⌊a / b⌋ : ℤ) : ℚ) ≤ a / b := Int.floor_le _
  have h2 : b * ((⌊a / b⌋ : ℤ) : ℚ) ≤ b * (a / b) :=
    mul_le_mul_of_nonneg_left h1 hb.le
  have h3 : b * (a / b) = a := by field_simp
  linarith

/-! ## Concrete environments used by the witnesses and counterexamples -/

/-- A model whose every invocation raises. -/
def mFail : WhisperModel := ⟨fun _ => none⟩

/-- A model that returns a transcript with no segments. -/
def mText : WhisperModel := ⟨fun p => some ⟨"T:" ++ p, []⟩⟩

/-- An inconsistent cache: timestamped and segmented files exist for stem
`a`, the plain sibling does not. -/
def fsInconsistent : FS :=
  [("o/transcriptions/a.txt", "X"), ("o/transcriptions/a_segmented.txt", "Y")]

/-- A downloader for which item `v2` exits non-zero and every other item
produces its expected file. -/
def envPartial : DownloadEnv :=
  ⟨fun v => some ("d/" ++ v.title ++ ".mp4"),
   fun v fs => if v.id == "v2" then (false, fs)
               else (true, fs ++ ["d/" ++ v.title ++ ".mp4"])⟩

/-- A downloader that resolves every filename to `d/t.mp4` and downloads
nothing new. -/
def envSkip : DownloadEnv :=
  ⟨fun _ => some "d/t.mp4", fun _ fs => (true, fs)⟩

/-- A downloader whose download succeeds but produces no resolvable
file. -/
def envNoResolve : DownloadEnv :=
  ⟨fun _ => some "d/x.mp4", fun _ fs => (true, fs)⟩

/-- A well-behaved downloader: every download adds the expected file. -/
def envOk : DownloadEnv :=
  ⟨fun v => some ("d/" ++ v.title ++ ".mp4"),
   fun v fs => (true, fs ++ ["d/" ++ v.title ++ ".mp4"])⟩

/-! ## C1: Assembler idempotence -/

/-- C1 counterexample: the claim quantifies over every media list, but
when an item's model invocation fails on the first run no cache files are
written for it, so the second run over the untouched filesystem invokes
the model again for that item — the claimed "invokes the recognition
model for no item" is false at this input. -/
theorem c1_counterexample :
    (transcribe_videos mFail ["a.mp4"] "o"
      (transcribe_videos mFail ["a.mp4"] "o" []).fs).invoked = ["a.mp4"] := by
  decide

/-- C1 (amended): if the first run succeeded for every item (one recorded
path per item) and the per-item transcript filenames of distinct items do
not collide with each other nor with the three combined filenames, then a
second run over the first run's filesystem invokes the model for no item,
rebuilds byte-identical combined buffers, records the same paths, and
leaves every file on disk byte-identical. -/
theorem c1_assembler_idempotent_amended (m : WhisperModel) (videos : List String)
    (dir : String) (fs : FS)
    (hdisj : videos.Pairwise (fun u w =>
      ∀ q ∈ itemFiles (dir ++ "/transcriptions") u,
        q ∉ itemFiles (dir ++ "/transcriptions") w))
    (hcomb : ∀ u ∈ videos, ∀ q ∈ itemFiles (dir ++ "/transcriptions") u,
      q ∉ combinedFiles (dir ++ "/transcriptions"))
    (hok : (transcribe_videos m videos dir fs).paths.length = videos.length) :
    (transcribe_videos m videos dir
        (transcribe_videos m videos dir fs).fs).invoked = [] ∧
    (transcribe_videos m videos dir (transcribe_videos m videos dir fs).fs).withTs
        = (transcribe_videos m videos dir fs).withTs ∧
    (transcribe_videos m videos dir (transcribe_videos m videos dir fs).fs).noTs
        = (transcribe_videos m videos dir fs).noTs ∧
    (transcribe_videos m videos dir (transcribe_videos m videos dir fs).fs).seg
        = (transcribe_videos m videos dir fs).seg ∧
    (transcribe_videos m videos dir (transcribe_videos m videos dir fs).fs).paths
        = (transcribe_videos m videos dir fs).paths ∧
    ∀ q, fsRead (transcribe_videos m videos dir
          (transcribe_videos m videos dir fs).fs).fs q
        = fsRead (transcribe_videos m videos dir fs).fs q := by
  obtain ⟨e1w, e1n, e1s, e1p, e1i, e1f⟩ := transcribe_videos_proj m videos dir fs
  obtain ⟨e2w, e2n, e2s, e2p, e2i, e2f⟩ :=
    transcribe_videos_proj m videos dir (transcribe_videos m videos dir fs).fs
  set tdir := dir ++ "/transcriptions" with htd
  set A := runFold m tdir (initState fs) videos with hA
  set B := runFold m tdir
    (initState (transcribe_videos m videos dir fs).fs) videos with hB
  rw [e1p] at hok
  obtain ⟨hp, hw, hn, hs, hmem⟩ :=
    runFold_success_spec m tdir videos (initState fs) hdisj
      (by simpa [initState] using hok)
  have hne : ∀ u ∈ videos, ∀ p ∈ itemFiles tdir u,
      fsRead (transcribe_videos m videos dir fs).fs p = fsRead A.fs p := by
    intro u hu p hp'
    have hc := hcomb u hu p hp'
    simp only [combinedFiles, List.mem_cons, List.not_mem_nil, or_false,
      not_or] at hc
    rw [e1f]
    simp [fsRead_fsWrite, hc.1, hc.2.1, hc.2.2]
  obtain ⟨h2f, h2i, h2p, h2w, h2n, h2s⟩ :=
    runFold_cached_spec m tdir videos
      (initState (transcribe_videos m videos dir fs).fs)
      (by
        intro u hu
        have h1 := hne u hu (outFile tdir (stem u)) (by simp [itemFiles])
        have h2 := hne u hu (noTsFile tdir (stem u)) (by simp [itemFiles])
        have h3 := hne u hu (segFile tdir (stem u)) (by simp [itemFiles])
        refine ⟨?_, ?_, ?_⟩
        · show (fsRead (transcribe_videos m videos dir fs).fs _).isSome = true
          rw [h1]; exact (hmem u hu).1
        · show (fsRead (transcribe_videos m videos dir fs).fs _).isSome = true
          rw [h2]; exact (hmem u hu).2.1
        · show (fsRead (transcribe_videos m videos dir fs).fs _).isSome = true
          rw [h3]; exact (hmem u hu).2.2)
  have hBw : B.withTs = A.withTs := by
    rw [h2w, hw]
    exact congrArg (fun s => "" ++ s)
      (joinAll_congr videos _ _ (fun u hu => by
        rw [show (initState (transcribe_videos m videos dir fs).fs).fs
              = (transcribe_videos m videos dir fs).fs from rfl,
          hne u hu _ (by simp [itemFiles])]))
  have hBn : B.noTs = A.noTs := by
    rw [h2n, hn]
    exact congrArg (fun s => "" ++ s)
      (joinAll_congr videos _ _ (fun u hu => by
        rw [show (initState (transcribe_videos m videos dir fs).fs).fs
              = (transcribe_videos m videos dir fs).fs from rfl,
          hne u hu _ (by simp [itemFiles])]))
  have hBs : B.seg = A.seg := by
    rw [h2s, hs]
    exact congrArg (fun s => "" ++ s)
      (joinAll_congr videos _ _ (fun u hu => by
        rw [show (initState (transcribe_videos m videos dir fs).fs).fs
              = (transcribe_videos m videos dir fs).fs from rfl,
          hne u hu _ (by simp [itemFiles])]))
  refine ⟨?_, ?_, ?_, ?_, ?_, ?_⟩
  · rw [e2i, h2i]; rfl
  · rw [e2w, e1w, hBw]
  · rw [e2n, e1n, hBn]
  · rw [e2s, e1s, hBs]
  · rw [e2p, h2p, e1p, hp]; rfl
  · intro q
    rw [e2f, e1f, h2f, hBw, hBn, hBs,
      show (initState (transcribe_videos m videos dir fs).fs).fs
          = (transcribe_videos m videos dir fs).fs from rfl, e1f]
    simp only [fsRead_fsWrite]
    by_cases h3 : q = tdir ++ "/combined_transcription_segmented.txt" <;>
      by_cases h2 : q = tdir ++ "/combined_transcription.txt" <;>
      by_cases h1 : q = tdir ++ "/combined_transcription_with_timestamps.txt" <;>
      simp [h1, h2, h3]

/-- C1 witness: a one-item run with a succeeding model; the second run
invokes nothing and its combined timestamped buffer is identical. -/
theorem c1_witness :
    (transcribe_videos mText ["a.mp4"] "o"
      (transcribe_videos mText ["a.mp4"] "o" []).fs).invoked = [] ∧
    (transcribe_videos mText ["a.mp4"] "o"
      (transcribe_videos mText ["a.mp4"] "o" []).fs).withTs
      = (transcribe_videos mText ["a.mp4"] "o" []).withTs := by
  have h := c1_assembler_idempotent_amended mText ["a.mp4"] "o" []
    (by simp) (by decide) (by decide)
  exact ⟨h.1, h.2.1⟩

/-! ## C2: the cache completion marker -/

/-- C2: one loop iteration of `transcribe_videos` invokes the model on
its media file exactly when it is not the case that both the timestamped
file and the segmented file exist in the transcriptions directory; the
plain `_no_timestamps` file does not occur in the condition. -/
theorem c2_cache_completion_marker (m : WhisperModel) (tdir : String) (st : TState) (v : String) :
    (transcribeStep m tdir st v).invoked = st.invoked ++ [v] ↔
      ¬(fsExists st.fs (outFile tdir (stem v)) = true ∧
        fsExists st.fs (segFile tdir (stem v)) = true) := by
  have he := step_invoked_eq m tdir st v
  by_cases hg : (fsExists st.fs (outFile tdir (stem v)) &&
      fsExists st.fs (segFile tdir (stem v))) = true
  · rw [he, if_pos hg]
    have hb := (Bool.and_eq_true _ _).mp hg
    simp [hb.1, hb.2]
  · rw [he, if_neg hg]
    have hg' : ¬(fsExists st.fs (outFile tdir (stem v)) = true ∧
        fsExists st.fs (segFile tdir (stem v)) = true) := by
      intro hcon
      exact hg (by rw [hcon.1, hcon.2]; rfl)
    simp [hg']

/-! ## C3: skip detection in the Materializer -/

/-- C3: if the destination directory holds a file whose name contains the
item id and ends in `.mp4`, the download command is not invoked for that
item; and when the expected filename also exists, the expected filename
is the recorded path. -/
theorem c3_skip_detection (env : DownloadEnv) (dir : String) (fs : List String)
    (v : Video) :
    (fs.filter (globMatchMp4 dir v.id) ≠ [] →
      (processVideo env dir fs v).invoked = false) ∧
    (∀ e, env.printFilename v = some e → e ∈ fs →
      fs.filter (globMatchMp4 dir v.id) ≠ [] →
      (processVideo env dir fs v).path = some e) := by
  constructor
  · intro hglob
    cases hpf : env.printFilename v with
    | none => simp [processVideo, hpf]
    | some e =>
      simp only [processVideo, hpf]
      by_cases hc : e ∈ fs
      · rw [if_pos (contains_true_of_mem hc)]
      · rw [if_neg (by simp [hc])]
        cases hm : fs.filter (globMatchMp4 dir v.id) with
        | nil => exact absurd hm hglob
        | cons a t => simp [hm]
  · intro e hpf hc _
    simp only [processVideo, hpf]
    rw [if_pos (contains_true_of_mem hc)]

/-- C3 witness: a glob match alone suppresses the download; with the
expected file also present, the expected filename is recorded. -/
theorem c3_witness :
    (processVideo envSkip "d" ["d/xv1x.mp4"] ⟨"v1", "t"⟩).invoked = false ∧
    (processVideo envSkip "d" ["d/t.mp4", "d/xv1x.mp4"] ⟨"v1", "t"⟩).path
      = some "d/t.mp4" :=
  ⟨(c3_skip_detection envSkip "d" ["d/xv1x.mp4"] ⟨"v1", "t"⟩).1 (by decide),
   (c3_skip_detection envSkip "d" ["d/t.mp4", "d/xv1x.mp4"] ⟨"v1", "t"⟩).2
     "d/t.mp4" rfl (by decide) (by decide)⟩

/-! ## C4: Materializer idempotence -/

/-- C4: when the first run recorded a path for every manifest item and
downloads only ever add files, a second run against the first run's
filesystem invokes the download command for no item. -/
theorem c4_materializer_idempotent (env : DownloadEnv) (dir : String) (videos : List Video)
    (fs : List String)
    (hmono : ∀ u fs', fs' ⊆ (env.download u fs').2)
    (hok : (download_playlist env dir videos fs).paths.length = videos.length) :
    (download_playlist env dir videos
      (download_playlist env dir videos fs).fs).invoked = [] := by
  unfold download_playlist at hok ⊢
  have hres := dl_run_resolved env dir hmono videos ⟨[], fs, []⟩
    (by simpa using hok)
  obtain ⟨hi, _⟩ := dl_run_noinvoke env dir videos
    ⟨[], (List.foldl (downloadStep env dir) ⟨[], fs, []⟩ videos).fs, []⟩
    (by
      intro v hv e hpf
      obtain ⟨e', hpf', hres'⟩ := hres v hv
      rw [hpf] at hpf'
      injection hpf' with he
      subst he
      exact hres')
  exact hi

/-- C4 witness: a one-item playlist downloaded successfully on the first
run; the second run invokes nothing. -/
theorem c4_witness :
    (download_playlist envOk "d" [⟨"v1", "t1"⟩]
      (download_playlist envOk "d" [⟨"v1", "t1"⟩] []).fs).invoked = [] :=
  c4_materializer_idempotent envOk "d" [⟨"v1", "t1"⟩] []
    (fun _ fs' => List.subset_append_left fs' _) (by decide)

/-! ## C5: timestamp formatting -/

/-- C5: for every nonnegative number of seconds the code's
truncation-based arithmetic agrees with the specification's
floor-based formula `floor(s/3600) : floor((s mod 3600)/60) :
floor(s mod 60)`, each field zero-padded to at least two digits; the four
anchor values of the specification hold, the last one showing hours are
unbounded. -/
theorem c5_format_timestamp :
    (∀ s : ℚ, 0 ≤ s →
      format_timestamp s
        = padZero2 ⌊s / 3600⌋ ++ ":" ++ padZero2 ⌊pyMod s 3600 / 60⌋
            ++ ":" ++ padZero2 ⌊pyMod s 60⌋) ∧
    format_timestamp 0 = "00:00:00" ∧
    format_timestamp 61 = "00:01:01" ∧
    format_timestamp 3661 = "01:01:01" ∧
    format_timestamp 360000 = "100:00:00" := by
  refine ⟨?_, ?_, ?_, ?_, ?_⟩
  · intro s hs
    have h1 : (0:ℚ) ≤ s / 3600 := by positivity
    have hm1 : (0:ℚ) ≤ pyMod s 3600 := pyMod_nonneg s 3600 (by norm_num)
    have h2 : (0:ℚ) ≤ pyMod s 3600 / 60 := by positivity
    have h3 : (0:ℚ) ≤ pyMod s 60 := pyMod_nonneg s 60 (by norm_num)
    unfold format_timestamp pyTrunc
    rw [if_pos h1, if_pos h2, if_pos h3]
  all_goals (norm_num [format_timestamp, pyTrunc, pyMod]; decide)

/-- C5 witness: the general formula applied at 61 seconds. -/
theorem c5_witness :
    (0:ℚ) ≤ 61 ∧
    format_timestamp 61
      = padZero2 ⌊(61:ℚ) / 3600⌋ ++ ":" ++ padZero2 ⌊pyMod 61 3600 / 60⌋
          ++ ":" ++ padZero2 ⌊pyMod 61 60⌋ :=
  ⟨by norm_num, c5_format_timestamp.1 61 (by norm_num)⟩

/-! ## C6: combined-file composition -/

/-- C6: when every item is freshly transcribed (its cache marker absent,
no filename collisions between items) and every model call succeeds, the
combined segmented buffer — and the combined segmented file written at
the end — equal the concatenation, in input order, of each item's
segmented text followed by a blank line. -/
theorem c6_combined_composition (m : WhisperModel) (videos : List String) (dir : String)
    (fs : FS)
    (hdisj : videos.Pairwise (fun u w =>
      ∀ q ∈ itemFiles (dir ++ "/transcriptions") u,
        q ∉ itemFiles (dir ++ "/transcriptions") w))
    (hfresh : ∀ u ∈ videos,
      fsExists fs (outFile (dir ++ "/transcriptions") (stem u)) = false)
    (hm : ∀ u ∈ videos, (m.transcribe u).isSome = true) :
    (transcribe_videos m videos dir fs).seg
        = joinAll (videos.map fun u =>
            (renderSegments ((m.transcribe u).getD ⟨"", []⟩).segments).2
              ++ "\n\n") ∧
    fsRead (transcribe_videos m videos dir fs).fs
        ((dir ++ "/transcriptions") ++ "/combined_transcription_segmented.txt")
      = some (joinAll (videos.map fun u =>
          (renderSegments ((m.transcribe u).getD ⟨"", []⟩).segments).2
            ++ "\n\n")) := by
  obtain ⟨e1w, e1n, e1s, e1p, e1i, e1f⟩ := transcribe_videos_proj m videos dir fs
  have hseg := runFold_fresh_seg m (dir ++ "/transcriptions") videos
    (initState fs) hdisj hfresh hm
  have hseg' : (runFold m (dir ++ "/transcriptions") (initState fs) videos).seg
      = joinAll (videos.map fun u =>
          (renderSegments ((m.transcribe u).getD ⟨"", []⟩).segments).2
            ++ "\n\n") := by
    rw [hseg]
    exact String.empty_append _
  constructor
  · rw [e1s, hseg']
  · rw [e1f, fsRead_fsWrite, if_pos rfl, hseg']

/-- C6 witness: two items, models succeeding with empty segment lists. -/
theorem c6_witness :
    (transcribe_videos mText ["a.mp4", "b.mp4"] "o" []).seg
        = joinAll ((["a.mp4", "b.mp4"] : List String).map fun u =>
            (renderSegments ((mText.transcribe u).getD ⟨"", []⟩).segments).2
              ++ "\n\n") ∧
    fsRead (transcribe_videos mText ["a.mp4", "b.mp4"] "o" []).fs
        (("o" ++ "/transcriptions") ++ "/combined_transcription_segmented.txt")
      = some (joinAll ((["a.mp4", "b.mp4"] : List String).map fun u =>
          (renderSegments ((mText.transcribe u).getD ⟨"", []⟩).segments).2
            ++ "\n\n")) :=
  c6_combined_composition mText ["a.mp4", "b.mp4"] "o" []
    (by decide) (by decide) (by decide)

/-! ## C7: cache-inconsistency handling -/

/-- C7: when the timestamped and segmented files exist but the plain
sibling is missing, the iteration's read of the plain file fails: the
item records no transcript path, the model is not invoked, neither the
plain nor the segmented buffer receives fabricated content, and the loop
proceeds to the remaining files. -/
theorem c7_missing_artifact (m : WhisperModel) (tdir : String) (st : TState)
    (v : String) (rest : List String)
    (h1 : fsExists st.fs (outFile tdir (stem v)) = true)
    (h3 : fsExists st.fs (segFile tdir (stem v)) = true)
    (h2 : fsRead st.fs (noTsFile tdir (stem v)) = none) :
    (transcribeStep m tdir st v).paths = st.paths ∧
    (transcribeStep m tdir st v).invoked = st.invoked ∧
    (transcribeStep m tdir st v).noTs = st.noTs ∧
    (transcribeStep m tdir st v).seg = st.seg ∧
    runFold m tdir st (v :: rest)
      = runFold m tdir (transcribeStep m tdir st v) rest := by
  simp only [fsExists] at h1
  obtain ⟨t1, ht1⟩ := Option.isSome_iff_exists.mp h1
  have hstep := step_cached_noPlain m tdir st v t1 ht1 h2 h3
  exact ⟨by rw [hstep], by rw [hstep], by rw [hstep], by rw [hstep], rfl⟩

/-- C7 witness: the inconsistent cache for stem `a`. -/
theorem c7_witness :
    (transcribeStep mFail "o/transcriptions" (initState fsInconsistent)
      "a.mp4").paths = (initState fsInconsistent).paths ∧
    (transcribeStep mFail "o/transcriptions" (initState fsInconsistent)
      "a.mp4").noTs = (initState fsInconsistent).noTs := by
  have h := c7_missing_artifact mFail "o/transcriptions"
    (initState fsInconsistent) "a.mp4" [] (by decide) (by decide) (by decide)
  exact ⟨h.1, h.2.2.1⟩

/-! ## C8: per-item failure atomicity -/

/-- C8 counterexample: with the inconsistent cache for stem `a`, the
item's processing fails (it is omitted from the returned sequence), yet
the combined timestamped buffer received the already-read content `X` —
the item does contribute to one of the three buffers, contradicting the
claim that a failed item contributes nothing to any of them. -/
theorem c8_counterexample :
    (transcribe_videos mFail ["a.mp4"] "o" fsInconsistent).paths = [] ∧
    (transcribe_videos mFail ["a.mp4"] "o" fsInconsistent).withTs
      = "X\n\n" := by
  decide

/-- C8 (amended): a failed item is omitted from the returned sequence and
the loop continues; a model-invocation failure contributes nothing to any
buffer, while a cache-read failure on the plain sibling contributes
nothing to the plain and segmented buffers but leaves in the timestamped
buffer the content appended before the read failed. -/
theorem c8_per_item_failure_amended (m : WhisperModel) (tdir : String) (st : TState)
    (v : String) (rest : List String) :
    ((fsExists st.fs (outFile tdir (stem v)) &&
        fsExists st.fs (segFile tdir (stem v))) = false →
      m.transcribe v = none →
      transcribeStep m tdir st v = { st with invoked := st.invoked ++ [v] }) ∧
    (∀ t1, fsRead st.fs (outFile tdir (stem v)) = some t1 →
      fsRead st.fs (noTsFile tdir (stem v)) = none →
      (fsRead st.fs (segFile tdir (stem v))).isSome = true →
      (transcribeStep m tdir st v).noTs = st.noTs ∧
      (transcribeStep m tdir st v).seg = st.seg ∧
      (transcribeStep m tdir st v).fs = st.fs ∧
      (transcribeStep m tdir st v).paths = st.paths ∧
      (transcribeStep m tdir st v).withTs = st.withTs ++ t1 ++ "\n\n") ∧
    runFold m tdir st (v :: rest)
      = runFold m tdir (transcribeStep m tdir st v) rest := by
  refine ⟨fun hg hm => step_fresh_fail m tdir st v hg hm, ?_, rfl⟩
  intro t1 ht1 h2 h3
  have hstep := step_cached_noPlain m tdir st v t1 ht1 h2 h3
  exact ⟨by rw [hstep], by rw [hstep], by rw [hstep], by rw [hstep], by rw [hstep]⟩

/-- C8 witness: both failure modes at concrete states: a model failure
appends only to the invocation log, and a cache-read failure leaves the
timestamped buffer holding the already-read content. -/
theorem c8_witness :
    transcribeStep mFail "o/transcriptions" (initState []) "a.mp4"
      = { initState [] with invoked := (initState []).invoked ++ ["a.mp4"] } ∧
    (transcribeStep mFail "o/transcriptions" (initState fsInconsistent)
      "a.mp4").withTs = (initState fsInconsistent).withTs ++ "X" ++ "\n\n" := by
  have hA := c8_per_item_failure_amended mFail "o/transcriptions"
    (initState []) "a.mp4" []
  have hB := c8_per_item_failure_amended mFail "o/transcriptions"
    (initState fsInconsistent) "a.mp4" []
  exact ⟨hA.1 (by decide) rfl,
    (hB.2.1 "X" (by decide) (by decide) (by decide)).2.2.2.2⟩

/-! ## C9: partial download failure -/

/-- C9: on a three-item playlist where only item 2's download exits
non-zero, the run returns exactly the two paths of items 1 and 3 in
manifest order, and the loop reached all three items (the failure neither
raised nor aborted the loop). -/
theorem c9_partial_failure :
    (download_playlist envPartial "d"
      [⟨"v1", "t1"⟩, ⟨"v2", "t2"⟩, ⟨"v3", "t3"⟩] []).paths
        = ["d/t1.mp4", "d/t3.mp4"] ∧
    (download_playlist envPartial "d"
      [⟨"v1", "t1"⟩, ⟨"v2", "t2"⟩, ⟨"v3", "t3"⟩] []).invoked
        = ["v1", "v2", "v3"] := by
  decide

/-! ## C10: recorded paths were observed on disk -/

/-- C10: a path is recorded by an iteration only when the existence
check or a glob match saw it in the filesystem in force at that moment
(the step's final filesystem), an iteration whose recorded path is
`none` appends nothing to the result, and an invoked download whose
produced file resolves neither by expected filename nor by glob records
`none`. -/
theorem c10_recorded_paths_observed (env : DownloadEnv) (dir : String)
    (st : DLState) (v : Video) :
    (∀ p, (processVideo env dir st.fs v).path = some p →
      p ∈ (processVideo env dir st.fs v).fs) ∧
    ((processVideo env dir st.fs v).path = none →
      (downloadStep env dir st v).paths = st.paths) ∧
    (∀ e, env.printFilename v = some e →
      e ∉ st.fs →
      st.fs.filter (globMatchMp4 dir v.id) = [] →
      (env.download v st.fs).1 = true →
      e ∉ (env.download v st.fs).2 →
      (env.download v st.fs).2.filter (globMatchMp4 dir v.id) = [] →
      (processVideo env dir st.fs v).path = none) := by
  refine ⟨?_, ?_, ?_⟩
  · intro p hp
    cases hpf : env.printFilename v with
    | none => simp [processVideo, hpf] at hp
    | some e =>
      simp only [processVideo, hpf] at hp ⊢
      by_cases hc : e ∈ st.fs
      · rw [if_pos (contains_true_of_mem hc)] at hp ⊢
        simp at hp
        subst hp
        exact hc
      · rw [if_neg (by simp [hc])] at hp ⊢
        cases hfil : st.fs.filter (globMatchMp4 dir v.id) with
        | cons a t =>
          simp only [hfil] at hp ⊢
          simp at hp
          subst hp
          exact List.mem_of_mem_filter
            (by rw [hfil]; exact List.mem_cons_self a t)
        | nil =>
          simp only [hfil] at hp ⊢
          by_cases hok : (env.download v st.fs).1 = true
          · rw [if_pos hok] at hp ⊢
            by_cases hce : e ∈ (env.download v st.fs).2
            · rw [if_pos (contains_true_of_mem hce)] at hp ⊢
              simp at hp
              subst hp
              exact hce
            · rw [if_neg (by simp [hce])] at hp ⊢
              cases hfil2 : (env.download v st.fs).2.filter
                  (globMatchMp4 dir v.id) with
              | nil => simp [hfil2] at hp
              | cons a t =>
                simp only [hfil2] at hp ⊢
                simp at hp
                subst hp
                exact List.mem_of_mem_filter
                  (by rw [hfil2]; exact List.mem_cons_self a t)
          · rw [if_neg hok] at hp
            simp at hp
  · intro h
    simp [downloadStep, h]
  · intro e hpf hc hfil hok hce hfil2
    simp only [processVideo, hpf]
    rw [if_neg (by simp [hc])]
    simp only [hfil]
    rw [if_pos hok, if_neg (by simp [hce])]
    simp [hfil2]

/-- C10 witness: a recorded path is in the observed filesystem, and an
unresolvable download records nothing. -/
theorem c10_witness :
    "d/t.mp4" ∈ (processVideo envSkip "d"
      (⟨[], ["d/t.mp4"], []⟩ : DLState).fs ⟨"v1", "t"⟩).fs ∧
    (processVideo envNoResolve "d"
      (⟨[], [], []⟩ : DLState).fs ⟨"v1", "t"⟩).path = none :=
  ⟨(c10_recorded_paths_observed envSkip "d" ⟨[], ["d/t.mp4"], []⟩
      ⟨"v1", "t"⟩).1 "d/t.mp4" (by decide),
   (c10_recorded_paths_observed envNoResolve "d" ⟨[], [], []⟩
      ⟨"v1", "t"⟩).2.2 "d/x.mp4" rfl (by decide) (by decide) rfl
     (by decide) (by decide)⟩

end Whisptube
